import Mathlib

/-!
# Verification of the autogem completion pipeline

A shallow embedding of the context-assembly and completion pipeline of the
autogem editor extension.  Strings are modelled as `List Char`; a document is
a list of lines (each a `List Char`, without the terminating newline); a
position is a pair of a line index and a character column.  Asynchronous
calls are modelled by sequential state passing: the suggestion cache and the
rate-limit counter are threaded explicitly, and each operation additionally
reports how many upstream (network) calls it issued.
-/

namespace Autogem

/-- The backtick character, written by code point to keep it out of the
source text of this file. -/
def btick : Char := Char.ofNat 96

/-- The single-quote character. -/
def squote : Char := Char.ofNat 39

/-- The double-quote character. -/
def dquote : Char := Char.ofNat 34

/-- The opening-brace character. -/
def obrace : Char := Char.ofNat 123

/-- Whitespace characters, the ASCII part of the class matched by the
source's `trim`, `trimRight` and the regex class `\s`. -/
def isWsChar (c : Char) : Bool :=
  c = ' ' || c = '\t' || c = '\n' || c = '\r' || c = '\x0b' || c = '\x0c'

/-- Word characters: the regex class `[\w]`, i.e. letters, digits and
underscore. -/
def isWordChar (c : Char) : Bool :=
  c.isAlpha || c.isDigit || c = '_'

/-- Identifier characters of the regex class `[a-zA-Z0-9_$]`. -/
def isIdentCharJS (c : Char) : Bool :=
  c.isAlpha || c.isDigit || c = '_' || c = '$'

/-- Leading-whitespace removal (the left half of JS `trim`). -/
def trimLeft (l : List Char) : List Char := l.dropWhile isWsChar

/-- Trailing-whitespace removal (JS `trimRight`). -/
def trimRight (l : List Char) : List Char := l.rdropWhile isWsChar

/-- JS `String.prototype.trim`: whitespace removed from both ends. -/
def trimJS (l : List Char) : List Char := trimRight (trimLeft l)

/-! ## Response sanitizer (`sanitizeCompletion`, model-manager.ts) -/

/-- Step of `sanitizeCompletion`: `replace(/^\x60\x60\x60[\w]*\n/, "")` —
remove a leading fence line consisting of three backticks, an optional
language tag of word characters, and a newline. -/
def stripLeadingFence (l : List Char) : List Char :=
  if l.take 3 = [btick, btick, btick] then
    match (l.drop 3).dropWhile isWordChar with
    | c :: rest => if c = '\n' then rest else l
    | [] => l
  else l

/-- Step of `sanitizeCompletion`: `replace(/\n\x60\x60\x60$/, "")` — remove a
trailing newline followed by three backticks at the very end. -/
def stripTrailingFence (l : List Char) : List Char :=
  if ['\n', btick, btick, btick].isSuffixOf l then l.take (l.length - 4) else l

/-- Step of `sanitizeCompletion`: `split("\n\n")[0]` — keep only the text
before the first pair of consecutive newlines. -/
def firstParagraph : List Char → List Char
  | [] => []
  | c :: rest =>
    if c = '\n' ∧ rest.head? = some '\n' then [] else c :: firstParagraph rest

/-- `sanitizeCompletion` from model-manager.ts: trim, strip markdown code
fences, and drop everything from the first blank line onward. -/
def sanitizeCompletion (completion : List Char) : List Char :=
  firstParagraph (stripTrailingFence (stripLeadingFence (trimJS completion)))

/-! ## Indentation reapplication (`applyIndentation`, multiline provider) -/

/-- The per-line mapping function inside `applyIndentation`: the first line
and whitespace-only lines stay; a line with leading whitespace stays when it
starts with the base indentation and otherwise has its leading whitespace
replaced; a line with no leading whitespace gets the base prepended. -/
def indentLine (base : List Char) (idx : Nat) (line : List Char) : List Char :=
  if idx = 0 then line
  else if trimJS line = [] then line
  else
    let lineIndent := line.takeWhile isWsChar
    if lineIndent ≠ [] then
      if base.isPrefixOf line then line
      else base ++ line.drop lineIndent.length
    else base ++ line

/-- `applyIndentation` from the multiline completion provider: split the
suggestion into lines, leave single-line suggestions alone, otherwise map
`indentLine` over the numbered lines and rejoin with newlines. -/
def applyIndentation (suggestion base : List Char) : List Char :=
  let lines := suggestion.splitOn '\n'
  if lines.length ≤ 1 then suggestion
  else List.intercalate ['\n'] (lines.mapIdx (fun i line => indentLine base i line))

/-! ## Context assembly (`getContextData`, extension.ts inline provider) -/

/-- The combination step of `getContextData`:
`[importStatements, projectContext, currentScope, immediateContext].filter(Boolean).join("\n")`. -/
def combineContextSections (imports projectContext currentScope immediateContext : List Char) :
    List Char :=
  List.intercalate ['\n']
    (([imports, projectContext, currentScope, immediateContext]).filter (fun s => !s.isEmpty))

/-! ## Request pipeline (utils.ts): cache, rate limiter, provider frame

`getCachedSuggestion` awaits the (debounced) upstream call on a cache miss;
here the upstream model is a pure function `gen` from prompt to response and
requests are processed sequentially (the extension runs on a single
cooperative thread).  Each operation returns, besides its result, the new
shared state and the number of upstream calls it issued. -/

/-- `getCacheKey` from utils.ts: the cache key is the raw prompt string. -/
def getCacheKey (prompt : List Char) : List Char := prompt

/-- `getCachedSuggestion` from utils.ts over an association-list cache:
return the cached value on a hit, otherwise call the upstream `gen` once and
record the result.  The third component counts upstream calls. -/
def getCachedSuggestion (gen : List Char → List Char) (prompt : List Char)
    (cache : List (List Char × List Char)) :
    List Char × List (List Char × List Char) × Nat :=
  match cache.lookup (getCacheKey prompt) with
  | some v => (v, cache, 0)
  | none =>
    let s := gen prompt
    (s, (getCacheKey prompt, s) :: cache, 1)

/-- `MAX_CALLS_PER_MINUTE` from utils.ts. -/
def MAX_CALLS_PER_MINUTE : Nat := 60

/-- `rateLimitCheck` from utils.ts: refuse once the counter has reached the
ceiling, otherwise increment it and allow the call.  Returns the decision
and the new counter. -/
def rateLimitCheck (callCount : Nat) : Bool × Nat :=
  if MAX_CALLS_PER_MINUTE ≤ callCount then (false, callCount)
  else (true, callCount + 1)

/-- The decisions of `n` consecutive `rateLimitCheck` calls inside one
one-minute window (no timer reset in between), starting from counter `c`. -/
def iterateChecks : Nat → Nat → List Bool
  | 0, _ => []
  | n + 1, c =>
    let r := rateLimitCheck c
    r.1 :: iterateChecks n r.2

/-- The counter value after `n` consecutive `rateLimitCheck` calls starting
from counter `c`. -/
def counterAfter : Nat → Nat → Nat
  | 0, c => c
  | n + 1, c => counterAfter n (rateLimitCheck c).2

/-- The process-wide state touched by one completion request: the rate-limit
counter and the suggestion cache. -/
structure PipelineState where
  callCount : Nat
  cache : List (List Char × List Char)
deriving DecidableEq

/-- The state-relevant frame of `provideInlineCompletionItems`
(extension.ts): `rateLimitCheck` runs first; only if it allows the request
is the cache consulted (inside `getCachedSuggestion`).  The API-key,
language and trigger gates, which touch neither the counter nor the cache,
are elided.  Returns the completion (if any), the new state, and the number
of upstream calls issued. -/
def provideInline (gen : List Char → List Char) (prompt : List Char) (st : PipelineState) :
    Option (List Char) × PipelineState × Nat :=
  let rl := rateLimitCheck st.callCount
  if rl.1 then
    let r := getCachedSuggestion gen prompt st.cache
    (some r.1, ⟨rl.2, r.2.1⟩, r.2.2)
  else (none, ⟨rl.2, st.cache⟩, 0)

/-! ## Trigger policy (`shouldTriggerCompletion`, extension.ts) -/

/-- The `InlineCompletionTriggerKind` of the editor API. -/
inductive TriggerKind
  | Invoke
  | Automatic
deriving DecidableEq

/-- The configuration options read by `shouldTriggerCompletion`. -/
structure TriggerConfig where
  skipInComments : Bool
  skipInStrings : Bool
  triggerCharacters : List (List Char)
  minTriggerLength : Nat

/-- The fields of the assembled context data that `shouldTriggerCompletion`
inspects. -/
structure TriggerContextData where
  isInComment : Bool
  isInString : Bool
  currentLine : List Char

/-- The defaults of the configuration options used by
`shouldTriggerCompletion`: `skipInComments` true, `skipInStrings` false,
trigger characters `.`, `(`, `\x7b`, minimum trigger length 3. -/
def defaultTriggerConfig : TriggerConfig :=
  { skipInComments := true
    skipInStrings := false
    triggerCharacters := [".".toList, "(".toList, "\x7b".toList]
    minTriggerLength := 3 }

/-- `shouldTriggerCompletion` from the inline completion provider.  The
comment and string skip checks come first; then an explicit invocation
fires; then a trailing trigger character fires; then an automatic trigger
with a long enough trimmed line fires. -/
def shouldTriggerCompletion (config : TriggerConfig) (ctx : TriggerContextData)
    (kind : TriggerKind) : Bool :=
  if config.skipInComments && ctx.isInComment then false
  else if config.skipInStrings && ctx.isInString then false
  else
    let endsWithTrigger :=
      config.triggerCharacters.any (fun ch => ch.isSuffixOf (trimRight ctx.currentLine))
    if kind = TriggerKind.Invoke then true
    else if endsWithTrigger then true
    else if kind = TriggerKind.Automatic then
      if config.minTriggerLength ≤ (trimJS ctx.currentLine).length then true else false
    else false

/-! ## Language heuristics (language-features.ts)

`document.lineAt` is modelled totally: an out-of-range line index reads as
the empty line. -/

/-- The first index at which `needle` occurs as a contiguous substring of
the list, JS `String.prototype.indexOf`. -/
def indexOfSub (needle : List Char) : List Char → Option Nat
  | [] => if needle = [] then some 0 else none
  | c :: rest =>
    if needle.isPrefixOf (c :: rest) then some 0
    else (indexOfSub needle rest).map (fun n => n + 1)

/-- The languages of the `//`-comment branch of `isPositionInComment`. -/
def slashCommentLangs : List String :=
  ["javascript", "typescript", "java", "c", "cpp", "csharp", "go", "rust", "swift", "php"]

/-- The languages of the `#`-comment branch of `isPositionInComment`. -/
def hashCommentLangs : List String :=
  ["python", "ruby", "shell", "bash", "yaml"]

/-- The languages of the markup-comment branch of `isPositionInComment`. -/
def markupCommentLangs : List String :=
  ["html", "xml"]

/-- The per-line test of `isPositionInComment`: a line-comment token before
the cursor column (for markup languages, an opened and not yet closed
comment span).  The switch default returns false. -/
def commentCheck (lang : String) (line : List Char) (char : Nat) : Bool :=
  if lang ∈ slashCommentLangs then
    match indexOfSub ['/', '/'] line with
    | some p => decide (p < char)
    | none => false
  else if lang ∈ hashCommentLangs then
    match indexOfSub ['#'] line with
    | some p => decide (p < char)
    | none => false
  else if lang ∈ markupCommentLangs then
    match indexOfSub ("<!--".toList) line with
    | some ps =>
      decide (ps < char) &&
        (match indexOfSub ("-->".toList) line with
         | some pe => decide (char < pe)
         | none => true)
    | none => false
  else false

/-- `isPositionInComment` from language-features.ts over a document given as
a list of lines. -/
def isPositionInComment (lang : String) (doc : List (List Char)) (lineIdx charIdx : Nat) :
    Bool :=
  commentCheck lang (doc.getD lineIdx []) charIdx

/-- The languages of the quote-counting branch of `isPositionInString`. -/
def quoteStringLangs : List String :=
  ["javascript", "typescript", "java", "c", "cpp", "csharp", "go", "rust", "swift", "php",
    "python", "ruby"]

/-- The per-line test of `isPositionInString`: an odd number of single
quotes, double quotes or backticks before the cursor column.  The switch
default returns false. -/
def stringCheck (lang : String) (line : List Char) (char : Nat) : Bool :=
  if lang ∈ quoteStringLangs then
    let textBeforeCursor := line.take char
    decide (textBeforeCursor.count squote % 2 ≠ 0) ||
      decide (textBeforeCursor.count dquote % 2 ≠ 0) ||
      decide (textBeforeCursor.count btick % 2 ≠ 0)
  else false

/-- `isPositionInString` from language-features.ts. -/
def isPositionInString (lang : String) (doc : List (List Char)) (lineIdx charIdx : Nat) :
    Bool :=
  stringCheck lang (doc.getD lineIdx []) charIdx

/-- Does any of the given literal strings occur at the start of the list? -/
def startsWithAny (pats : List (List Char)) (t : List Char) : Bool :=
  pats.any (fun p => p.isPrefixOf t)

/-- The python branch's regex `[A-Z][A-Z0-9_]* *= *[^=]` anchored at the
start of the trimmed line: an ALL-CAPS name, spaces, an equals sign, spaces,
and one character that is not another equals sign. -/
def pythonConstMatch (t : List Char) : Bool :=
  match t with
  | [] => false
  | c :: rest =>
    if c.isUpper then
      match (rest.dropWhile fun d => d.isUpper || d.isDigit || d = '_').dropWhile
          (fun d => d = ' ') with
      | '=' :: r3 =>
        match r3.dropWhile (fun d => d = ' ') with
        | d :: _ => decide (d ≠ '=')
        | [] => false
      | _ => false
    else false

/-- The loop of the go branch of `getImportStatements`: lines starting a
package or import are kept, and inside an `import (` block every line is
kept until one ends with a closing parenthesis.  The accumulator is the kept
lines together with the in-import-block flag. -/
def goImportScan (lines : List (List Char)) : List (List Char) :=
  (lines.foldl
    (fun (acc : List (List Char) × Bool) line =>
      let t := trimJS line
      if ("package ".toList).isPrefixOf t then (acc.1 ++ [line], acc.2)
      else if ("import ".toList ++ [dquote]).isPrefixOf t || t = "import (".toList then
        (acc.1 ++ [line], true)
      else if acc.2 then
        (acc.1 ++ [line], !(t = [')'] || ([')']).isSuffixOf t))
      else acc)
    ([], false)).1

/-- `getImportStatements` from language-features.ts: keep the import-like
lines of the document per language, in order, joined with newlines.
Languages outside the switch yield the empty result. -/
def getImportStatements (lang : String) (text : List Char) : List Char :=
  let lines := text.splitOn '\n'
  let imports : List (List Char) :=
    if lang ∈ (["javascript", "typescript"] : List String) then
      lines.filter (fun line =>
        startsWithAny ["import ".toList, "export ".toList, "require(".toList] (trimJS line))
    else if lang = "python" then
      lines.filter (fun line =>
        startsWithAny ["import ".toList, "from ".toList] (trimJS line) ||
          pythonConstMatch (trimJS line))
    else if lang ∈ (["java", "kotlin"] : List String) then
      lines.filter (fun line =>
        startsWithAny ["package ".toList, "import ".toList] (trimJS line))
    else if lang = "go" then goImportScan lines
    else if lang = "rust" then
      lines.filter (fun line =>
        startsWithAny ["use ".toList, "#[".toList, "extern crate ".toList] (trimJS line))
    else []
  List.intercalate ['\n'] imports

/-! ## Scope extraction (`getCurrentScope` / `isBlockStart`, language-features.ts) -/

/-- Search for a match of `check` at every position of the list: the model
of an unanchored regex search. -/
def existsAt (check : List Char → Bool) : List Char → Bool
  | [] => check []
  | c :: rest => check (c :: rest) || existsAt check rest

/-- Search for a match of `check` immediately after some character that is
not a word character (a `\b` boundary that is not at the start). -/
def existsAfterNonWord (check : List Char → Bool) : List Char → Bool
  | [] => false
  | c :: rest => (!isWordChar c && check rest) || existsAfterNonWord check rest

/-- An anchored `^(kw1|kw2|...)\b` test: one of the keywords starts the
line and the following character, if any, is not a word character. -/
def startsWithKeyword (kws : List (List Char)) (l : List Char) : Bool :=
  kws.any (fun kw =>
    kw.isPrefixOf l &&
      (match l.drop kw.length with
       | [] => true
       | d :: _ => !isWordChar d))

/-- The regex `[a-zA-Z0-9_$]+\s*\([^)]*\)\s*\x7b` anchored at the start: an
identifier, an argument list, and an opening brace. -/
def identCallBrace (l : List Char) : Bool :=
  let idents := l.takeWhile isIdentCharJS
  if idents = [] then false
  else
    match (l.drop idents.length).dropWhile isWsChar with
    | '(' :: r1 =>
      (match r1.dropWhile (fun d => d ≠ ')') with
       | ')' :: r2 =>
         (match r2.dropWhile isWsChar with
          | d :: _ => d == obrace
          | [] => false)
       | _ => false)
    | _ => false

/-- One position of the unanchored regex `=>\s*\x7b`. -/
def arrowBraceCheck (s : List Char) : Bool :=
  match s with
  | '=' :: '>' :: r =>
    (match r.dropWhile isWsChar with
     | d :: _ => d == obrace
     | [] => false)
  | _ => false

/-- One position of the unanchored regex `\(\s*\)\s*\x7b`. -/
def parenBraceCheck (s : List Char) : Bool :=
  match s with
  | '(' :: r =>
    (match r.dropWhile isWsChar with
     | ')' :: r2 =>
       (match r2.dropWhile isWsChar with
        | d :: _ => d == obrace
        | [] => false)
     | _ => false)
  | _ => false

/-- One position of the unanchored regex `\x7b\s*$`: an opening brace
followed only by whitespace to the end of the line. -/
def braceEndCheck (s : List Char) : Bool :=
  match s with
  | c :: r => c == obrace && r.all isWsChar
  | [] => false

/-- One position of the ruby regex `do(\s*\|[^|]*\|)?\s*$` (the part after
the `\b` boundary). -/
def rubyDoCheck (s : List Char) : Bool :=
  match s with
  | 'd' :: 'o' :: r =>
    r.all isWsChar ||
      (match r.dropWhile isWsChar with
       | '|' :: r2 =>
         (match r2.dropWhile (fun d => d ≠ '|') with
          | '|' :: r3 => r3.all isWsChar
          | _ => false)
       | _ => false)
  | _ => false

/-- The keyword alternation of the c-family branch of `isBlockStart`. -/
def cFamilyKeywords : List (List Char) :=
  ["function".toList, "class".toList, "if".toList, "for".toList, "while".toList,
    "switch".toList, "try".toList, "else if".toList, "else".toList, "do".toList]

/-- The keyword alternation of the python branch of `isBlockStart`. -/
def pythonKeywords : List (List Char) :=
  ["def".toList, "class".toList, "if".toList, "for".toList, "while".toList, "try".toList,
    "elif".toList, "else".toList, "except".toList, "with".toList]

/-- The keyword alternation of the ruby branch of `isBlockStart`. -/
def rubyKeywords : List (List Char) :=
  ["def".toList, "class".toList, "module".toList, "if".toList, "unless".toList,
    "while".toList, "until".toList, "for".toList, "begin".toList, "case".toList]

/-- The keyword alternation of the go branch of `isBlockStart`. -/
def goKeywords : List (List Char) :=
  ["func".toList, "type".toList, "if".toList, "for".toList, "switch".toList,
    "select".toList, "case".toList, "default".toList]

/-- The keyword alternation of the rust branch of `isBlockStart`. -/
def rustKeywords : List (List Char) :=
  ["fn".toList, "struct".toList, "enum".toList, "impl".toList, "trait".toList,
    "if".toList, "while".toList, "for".toList, "loop".toList, "match".toList]

/-- The keyword alternation of the default branch of `isBlockStart`. -/
def defaultKeywords : List (List Char) :=
  ["function".toList, "class".toList, "if".toList, "for".toList, "while".toList,
    "try".toList]

/-- `isBlockStart` from language-features.ts, applied to the trimmed line. -/
def isBlockStart (lang : String) (line : List Char) : Bool :=
  if lang ∈ (["javascript", "typescript", "java", "c", "cpp", "csharp"] : List String) then
    startsWithKeyword cFamilyKeywords line || identCallBrace line ||
      existsAt arrowBraceCheck line || existsAt parenBraceCheck line ||
      existsAt braceEndCheck line
  else if lang = "python" then
    startsWithKeyword pythonKeywords line && (line.getLast? == some ':')
  else if lang = "ruby" then
    startsWithKeyword rubyKeywords line ||
      (rubyDoCheck line || existsAfterNonWord rubyDoCheck line)
  else if lang = "go" then
    startsWithKeyword goKeywords line || existsAt braceEndCheck line
  else if lang = "rust" then
    startsWithKeyword rustKeywords line || existsAt braceEndCheck line
  else
    startsWithKeyword defaultKeywords line || existsAt braceEndCheck line

/-- The length of the leading whitespace of a line
(`line.match(/^\s*/)?.[0].length || 0`). -/
def indentLen (line : List Char) : Nat := (line.takeWhile isWsChar).length

/-- The lines from index `a` to index `b` inclusive. -/
def sliceLines (lines : List (List Char)) (a b : Nat) : List (List Char) :=
  (lines.drop a).take (b - a + 1)

/-- The condition under which the backward walk of `getCurrentScope` stops
at line `i`: strictly smaller indentation than the cursor line and a
block-start line. -/
def openerAt (lang : String) (lines : List (List Char)) (cursorLine i : Nat) : Bool :=
  decide (indentLen (lines.getD i []) < indentLen (lines.getD cursorLine [])) &&
    isBlockStart lang (trimJS (lines.getD i []))

/-- The backward walk of `getCurrentScope`, from line index `i` down to 0:
stop at a block-opening line with smaller indentation and return everything
from there to the cursor; once 30 lines have been walked, return the last
30 lines plus the cursor line; reaching line 0 without either yields no
scope lines. -/
def scopeLoop (lang : String) (lines : List (List Char)) (cursorLine : Nat) :
    Nat → List (List Char)
  | 0 =>
    if openerAt lang lines cursorLine 0 then sliceLines lines 0 cursorLine
    else if 30 ≤ cursorLine - 0 then sliceLines lines (cursorLine - 30) cursorLine
    else []
  | i + 1 =>
    if openerAt lang lines cursorLine (i + 1) then sliceLines lines (i + 1) cursorLine
    else if 30 ≤ cursorLine - (i + 1) then sliceLines lines (cursorLine - 30) cursorLine
    else scopeLoop lang lines cursorLine i

/-- `getCurrentScope` from language-features.ts over the pre-cursor text
split into lines (the entry at the cursor's index is the cursor line
truncated at the cursor column). -/
def getCurrentScope (lang : String) (lines : List (List Char)) (cursorLine : Nat) :
    List Char :=
  List.intercalate ['\n'] (scopeLoop lang lines cursorLine cursorLine)

/-- Every language identifier that appears in some switch of
language-features.ts; identifiers outside this list take every switch's
default branch. -/
def knownLangs : List String :=
  ["javascript", "typescript", "java", "c", "cpp", "csharp", "go", "rust", "swift", "php",
    "python", "ruby", "shell", "bash", "yaml", "html", "xml", "kotlin"]

/-! ## Helper lemmas -/

theorem trimLeft_idem (l : List Char) : trimLeft (trimLeft l) = trimLeft l :=
  List.dropWhile_idempotent isWsChar l

theorem trimRight_idem (l : List Char) : trimRight (trimRight l) = trimRight l :=
  List.rdropWhile_idempotent isWsChar l

theorem trimLeft_of_isPrefix {a pre : List Char} (h : trimLeft a = a)
    (hpre : pre <+: a) : trimLeft pre = pre := by
  cases pre with
  | nil => rfl
  | cons c r =>
    obtain ⟨t, ht⟩ := hpre
    have hc : isWsChar c = false := by
      by_contra hcc
      rw [Bool.not_eq_false] at hcc
      rw [← ht] at h
      unfold trimLeft at h
      rw [List.cons_append, List.dropWhile_cons_of_pos hcc] at h
      have hle := (List.dropWhile_sublist (l := r ++ t) (p := isWsChar)).length_le
      have hlen := congrArg List.length h
      rw [List.length_cons] at hlen
      omega
    unfold trimLeft
    rw [List.dropWhile_cons_of_neg (by simp [hc])]

theorem trimJS_idem (l : List Char) : trimJS (trimJS l) = trimJS l := by
  unfold trimJS
  have hA : trimLeft (trimRight (trimLeft l)) = trimRight (trimLeft l) :=
    trimLeft_of_isPrefix (trimLeft_idem l) ( List.rdropWhile_prefix isWsChar (trimLeft l))
  rw [hA, trimRight_idem]

theorem trimJS_isInfix (l : List Char) : trimJS l <:+: l := by
  have h1 : trimRight (trimLeft l) <+: trimLeft l := List.rdropWhile_prefix isWsChar _
  have h2 : trimLeft l <:+ l := List.dropWhile_suffix isWsChar
  exact h1.isInfix.trans h2.isInfix

theorem mem_of_mem_trimJS {c : Char} {l : List Char} (h : c ∈ trimJS l) : c ∈ l :=
  (trimJS_isInfix l).subset h

theorem stripLeadingFence_of_no_btick {l : List Char} (h : btick ∉ l) :
    stripLeadingFence l = l := by
  unfold stripLeadingFence
  split
  · rename_i ht
    exfalso
    apply h
    apply List.take_subset 3 l
    rw [ht]
    simp
  · rfl

theorem stripTrailingFence_of_no_btick {l : List Char} (h : btick ∉ l) :
    stripTrailingFence l = l := by
  unfold stripTrailingFence
  split
  · rename_i ht
    exfalso
    apply h
    have hs : ['\n', btick, btick, btick] <:+ l := by
      rwa [← List.isSuffixOf_iff_suffix]
    exact hs.subset (by simp)
  · rfl

theorem firstParagraph_of_no_blank {l : List Char} (h : ¬ ['\n', '\n'] <:+: l) :
    firstParagraph l = l := by
  induction l with
  | nil => rfl
  | cons c rest ih =>
    show (if c = '\n' ∧ rest.head? = some '\n' then [] else c :: firstParagraph rest)
        = c :: rest
    rw [if_neg, ih]
    · intro hinf
      exact h (hinf.trans (List.suffix_cons c rest).isInfix)
    · rintro ⟨rfl, hh⟩
      cases rest with
      | nil => simp at hh
      | cons d r =>
        apply h
        simp only [List.head?_cons, Option.some.injEq] at hh
        subst hh
        exact ⟨[], r, by simp⟩

theorem splitOnP_sep_not_mem {α : Type} [DecidableEq α] (p : α → Bool) (l : List α) :
    ∀ m ∈ l.splitOnP p, ∀ a ∈ m, p a = false := by
  induction l with
  | nil =>
    intro m hm
    rw [List.splitOnP_nil] at hm
    simp only [List.mem_singleton] at hm
    subst hm
    simp
  | cons c rest ih =>
    intro m hm
    rw [List.splitOnP_cons] at hm
    by_cases hc : p c
    · rw [if_pos hc] at hm
      rcases List.mem_cons.mp hm with h | h
      · subst h; simp
      · exact ih m h
    · rw [if_neg hc] at hm
      cases hsp : rest.splitOnP p with
      | nil => exact absurd hsp (List.splitOnP_ne_nil p rest)
      | cons hd t =>
        rw [hsp, List.modifyHead_cons] at hm
        rcases List.mem_cons.mp hm with h1 | h1
        · subst h1
          intro a ha
          rcases List.mem_cons.mp ha with rfl | ha2
          · exact Bool.eq_false_iff.mpr hc
          · exact ih hd (hsp ▸ List.mem_cons_self hd t) a ha2
        · exact ih m (hsp ▸ List.mem_cons_of_mem hd h1)

theorem not_mem_of_mem_splitOn {α : Type} [DecidableEq α] {x : α} {l m : List α}
    (hm : m ∈ l.splitOn x) : x ∉ m := by
  intro hx
  have h := splitOnP_sep_not_mem (fun a => a == x) l m (by rwa [List.splitOn] at hm) x hx
  simp at h

theorem not_nl_indentLine {base line : List Char} (i : Nat)
    (hb : ('\n' : Char) ∉ base) (hl : ('\n' : Char) ∉ line) :
    ('\n' : Char) ∉ indentLine base i line := by
  unfold indentLine
  split
  · exact hl
  · split
    · exact hl
    · show ('\n' : Char) ∉
        (if line.takeWhile isWsChar ≠ [] then
          (if base.isPrefixOf line then line
           else base ++ line.drop (line.takeWhile isWsChar).length)
         else base ++ line)
      split_ifs with h1 h2
      · exact hl
      · intro hmem
        rcases List.mem_append.mp hmem with h | h
        · exact hb h
        · exact hl (List.drop_subset _ _ h)
      · intro hmem
        rcases List.mem_append.mp hmem with h | h
        · exact hb h
        · exact hl h

/-- Splitting the result of `applyIndentation` back into lines recovers
exactly the per-line map over the input's lines. -/
theorem splitOn_applyIndentation (suggestion base : List Char)
    (hb : ('\n' : Char) ∉ base) (hlen : 2 ≤ (suggestion.splitOn '\n').length) :
    (applyIndentation suggestion base).splitOn '\n'
      = (suggestion.splitOn '\n').mapIdx (fun i line => indentLine base i line) := by
  unfold applyIndentation
  simp only []
  rw [if_neg (by omega)]
  apply List.splitOn_intercalate
  · intro m hm
    rw [List.mem_iff_getElem] at hm
    obtain ⟨i, hi, hig⟩ := hm
    rw [List.getElem_mapIdx] at hig
    subst hig
    apply not_nl_indentLine i hb
    apply not_mem_of_mem_splitOn (l := suggestion)
    exact List.getElem_mem _
  · have hl : ((suggestion.splitOn '\n').mapIdx
        (fun i line => indentLine base i line)).length = (suggestion.splitOn '\n').length := by
      simp
    intro hnil
    rw [hnil] at hl
    simp at hl
    omega

theorem iterateChecks_all_true (k : Nat) :
    ∀ c, k + c ≤ MAX_CALLS_PER_MINUTE →
      (iterateChecks k c).all (fun b => b) = true := by
  induction k with
  | zero => intro c _; rfl
  | succ k ih =>
    intro c hc
    have hlt : ¬ MAX_CALLS_PER_MINUTE ≤ c := by
      unfold MAX_CALLS_PER_MINUTE at hc ⊢; omega
    simp only [iterateChecks, rateLimitCheck, if_neg hlt, List.all_cons, Bool.true_and]
    exact ih (c + 1) (by omega)

theorem counterAfter_le (m : Nat) :
    ∀ c, c ≤ MAX_CALLS_PER_MINUTE → counterAfter m c ≤ MAX_CALLS_PER_MINUTE := by
  induction m with
  | zero => intro c h; exact h
  | succ m ih =>
    intro c h
    simp only [counterAfter]
    apply ih
    unfold rateLimitCheck
    split
    · exact h
    · rename_i hlt; omega

theorem indentLine_eq (base : List Char) (i : Nat) (line : List Char) :
    indentLine base i line =
      if i = 0 then line
      else if trimJS line = [] then line
      else if line.takeWhile isWsChar ≠ [] then
        (if base.isPrefixOf line then line
         else base ++ line.drop (line.takeWhile isWsChar).length)
      else base ++ line := rfl

theorem indentLine_of_ws_only {line : List Char} (base : List Char) (i : Nat)
    (h : trimJS line = []) : indentLine base i line = line := by
  by_cases h0 : i = 0
  · rw [indentLine_eq, if_pos h0]
  · rw [indentLine_eq, if_neg h0, if_pos h]

theorem mapIdx_indentLine_getElem (suggestion base : List Char) (i : Nat)
    (hi : i < (suggestion.splitOn '\n').length) :
    ((suggestion.splitOn '\n').mapIdx (fun i line => indentLine base i line))[i]?
      = some (indentLine base i ((suggestion.splitOn '\n')[i])) := by
  rw [List.getElem?_mapIdx, List.getElem?_eq_getElem hi]
  rfl

/-! ## The claims -/

/-- C1: with the cache and the (debounced) upstream call modelled as
sequential state passing, two completion requests in immediate succession
with byte-identical prompt text issue exactly one upstream call and both
receive the identical resulting suggestion; two requests whose prompts
differ issue two upstream calls. -/
theorem claim_C1 (gen : List Char → List Char) (p q : List Char)
    (cache : List (List Char × List Char))
    (hp : List.lookup p cache = none) (hq : List.lookup q cache = none) (hpq : p ≠ q) :
    ((getCachedSuggestion gen p cache).2.2
        + (getCachedSuggestion gen p (getCachedSuggestion gen p cache).2.1).2.2 = 1
      ∧ (getCachedSuggestion gen p (getCachedSuggestion gen p cache).2.1).1
          = (getCachedSuggestion gen p cache).1)
    ∧ (getCachedSuggestion gen p cache).2.2
        + (getCachedSuggestion gen q (getCachedSuggestion gen p cache).2.1).2.2 = 2 := by
  have h1 : getCachedSuggestion gen p cache = (gen p, (p, gen p) :: cache, 1) := by
    unfold getCachedSuggestion getCacheKey
    rw [hp]
  have h2 : getCachedSuggestion gen p ((p, gen p) :: cache)
      = (gen p, (p, gen p) :: cache, 0) := by
    unfold getCachedSuggestion getCacheKey
    rw [List.lookup_cons_self]
  have h3 : getCachedSuggestion gen q ((p, gen p) :: cache)
      = (gen q, (q, gen q) :: (p, gen p) :: cache, 1) := by
    have hqp : (q == p) = false := by
      simp only [beq_eq_false_iff_ne, ne_eq]
      exact Ne.symm hpq
    have hpq2 : (p == q) = false := by
      simp only [beq_eq_false_iff_ne, ne_eq]
      exact hpq
    unfold getCachedSuggestion getCacheKey
    simp only [List.lookup_cons, hqp, hpq2, hq]
  rw [h1, h2, h3]
  exact ⟨⟨rfl, rfl⟩, rfl⟩

/-- C1 witness: the spec's example prompt requested twice against an empty
cache issues one upstream call and yields identical strings, and a prompt
differing in one character issues a second call. -/
theorem claim_C1_witness :
    ((getCachedSuggestion (fun _ => "1;".toList) ("complete: x = ".toList) []).2.2
        + (getCachedSuggestion (fun _ => "1;".toList) ("complete: x = ".toList)
            (getCachedSuggestion (fun _ => "1;".toList) ("complete: x = ".toList) []).2.1).2.2
          = 1
      ∧ (getCachedSuggestion (fun _ => "1;".toList) ("complete: x = ".toList)
            (getCachedSuggestion (fun _ => "1;".toList) ("complete: x = ".toList) []).2.1).1
          = (getCachedSuggestion (fun _ => "1;".toList) ("complete: x = ".toList) []).1)
    ∧ (getCachedSuggestion (fun _ => "1;".toList) ("complete: x = ".toList) []).2.2
        + (getCachedSuggestion (fun _ => "1;".toList) ("complete: y = ".toList)
            (getCachedSuggestion (fun _ => "1;".toList) ("complete: x = ".toList) []).2.1).2.2
          = 2 :=
  claim_C1 (fun _ => "1;".toList) ("complete: x = ".toList) ("complete: y = ".toList) []
    rfl rfl (by set_option maxRecDepth 4096 in decide)

/-- C2 counterexample: with the default configuration, an explicit
invocation at a position inside a `//` comment of a typescript line does
not fire, because the comment skip check precedes the trigger-kind check;
the claim requires it to fire. -/
theorem claim_C2_counterexample :
    shouldTriggerCompletion defaultTriggerConfig
      { isInComment := isPositionInComment "typescript" [("// note".toList)] 0 7
        isInString := isPositionInString "typescript" [("// note".toList)] 0 7
        currentLine := "// note".toList }
      TriggerKind.Invoke = false := by decide

/-- C2 (amended): an explicit invocation always fires provided the position
is not excluded by the comment/string skip options, i.e. whenever
`skipInComments` is off or the position is not in a comment, and
`skipInStrings` is off or the position is not in a string; the trigger
characters and the minimum line length are irrelevant to it. -/
theorem claim_C2 (config : TriggerConfig) (ctx : TriggerContextData)
    (hc : config.skipInComments = false ∨ ctx.isInComment = false)
    (hs : config.skipInStrings = false ∨ ctx.isInString = false) :
    shouldTriggerCompletion config ctx TriggerKind.Invoke = true := by
  unfold shouldTriggerCompletion
  rcases hc with hc | hc <;> rcases hs with hs | hs <;> simp [hc, hs]

/-- C2 witness: an explicit invocation on an empty line outside comments
and strings fires. -/
theorem claim_C2_witness :
    shouldTriggerCompletion defaultTriggerConfig
      { isInComment := false, isInString := false, currentLine := [] }
      TriggerKind.Invoke = true :=
  claim_C2 defaultTriggerConfig
    { isInComment := false, isInString := false, currentLine := [] }
    (Or.inr rfl) (Or.inl rfl)

set_option maxRecDepth 10000 in
/-- C3: within one rate-limit window starting from a fresh counter, any
sequence of at most 60 (`MAX_CALLS_PER_MINUTE`) checks all pass, the 61st
check in the same window is refused, and the counter never exceeds 60. -/
theorem claim_C3 (n : Nat) (hn : n ≤ MAX_CALLS_PER_MINUTE) :
    (iterateChecks n 0).all (fun b => b) = true
    ∧ (iterateChecks (MAX_CALLS_PER_MINUTE + 1) 0).getLast? = some false
    ∧ (∀ m c, c ≤ MAX_CALLS_PER_MINUTE → counterAfter m c ≤ MAX_CALLS_PER_MINUTE) := by
  refine ⟨iterateChecks_all_true n 0 (by omega), by decide, fun m => counterAfter_le m⟩

/-- C3 witness: the full window of 60 checks passes. -/
theorem claim_C3_witness : (iterateChecks 60 0).all (fun b => b) = true :=
  (claim_C3 60 (by decide)).1

/-- C4 counterexample: a request whose prompt is cached still consumes the
rate limiter — the counter moves from 0 to 1 although the cached value is
returned and no upstream call is issued — contradicting the claim that the
counter is unchanged on a cache hit. -/
theorem claim_C4_counterexample :
    provideInline (fun _ => []) ("p".toList) ⟨0, [("p".toList, "v".toList)]⟩
      = (some ("v".toList), ⟨1, [("p".toList, "v".toList)]⟩, 0)
    ∧ (1 : Nat) ≠ 0 := by decide

/-- C4 (amended): for a request whose prompt is in the cache and whose
rate-limit check passes, the cached completion is returned with no upstream
call and the cache unchanged, but the rate limiter is consulted first and
its counter is incremented. -/
theorem claim_C4 (gen : List Char → List Char) (prompt v : List Char)
    (st : PipelineState) (hhit : List.lookup prompt st.cache = some v)
    (hcap : st.callCount < MAX_CALLS_PER_MINUTE) :
    provideInline gen prompt st = (some v, ⟨st.callCount + 1, st.cache⟩, 0) := by
  have hlt : ¬ MAX_CALLS_PER_MINUTE ≤ st.callCount := by omega
  unfold provideInline rateLimitCheck getCachedSuggestion getCacheKey
  rw [if_neg hlt]
  simp [hhit]

/-- C4 witness: a concrete cache-hit request returns the cached value,
issues no upstream call and increments the counter. -/
theorem claim_C4_witness :
    provideInline (fun _ => []) ("p".toList) ⟨3, [("p".toList, "v".toList)]⟩
      = (some ("v".toList), ⟨4, [("p".toList, "v".toList)]⟩, 0) :=
  claim_C4 (fun _ => []) ("p".toList) ("v".toList) ⟨3, [("p".toList, "v".toList)]⟩
    rfl (by decide)

/-- C5 counterexample: the sanitizer is not idempotent.  On the input
consisting of a bare fence line followed by a space-indented character, the
first application strips the fence and leaves a leading space, and the
second application trims that space, so the two results differ. -/
theorem claim_C5_counterexample :
    sanitizeCompletion (sanitizeCompletion ("```\n a".toList))
      ≠ sanitizeCompletion ("```\n a".toList) := by decide

/-- C5 (amended): the sanitizer is idempotent on inputs that contain no
backtick and no two consecutive newlines; on such inputs it reduces to
trimming, which is idempotent.  In general a second application can strip
further, because removing a fence can expose new leading whitespace or a
new fence line. -/
theorem claim_C5 (x : List Char) (hb : btick ∉ x) (hnn : ¬ ['\n', '\n'] <:+: x) :
    sanitizeCompletion (sanitizeCompletion x) = sanitizeCompletion x := by
  have hbt : btick ∉ trimJS x := fun hm => hb (mem_of_mem_trimJS hm)
  have hnt : ¬ ['\n', '\n'] <:+: trimJS x := fun hi => hnn (hi.trans (trimJS_isInfix x))
  have h1 : sanitizeCompletion x = trimJS x := by
    unfold sanitizeCompletion
    rw [stripLeadingFence_of_no_btick hbt, stripTrailingFence_of_no_btick hbt,
      firstParagraph_of_no_blank hnt]
  rw [h1]
  unfold sanitizeCompletion
  rw [trimJS_idem, stripLeadingFence_of_no_btick hbt, stripTrailingFence_of_no_btick hbt,
    firstParagraph_of_no_blank hnt]

/-- C5 witness: the sanitizer is idempotent on a plain one-line completion. -/
theorem claim_C5_witness :
    sanitizeCompletion (sanitizeCompletion ("let y = 2;".toList))
      = sanitizeCompletion ("let y = 2;".toList) :=
  claim_C5 ("let y = 2;".toList) (by decide) (by decide)

/-- C6 counterexample: for the suggestion with second line indented by four
spaces and base indentation of two spaces, the second line's leading
whitespace differs from the base indentation, so the claim requires it to
be replaced, giving second line of two spaces and `b`; the code instead
leaves the line untouched because it starts with the base indentation. -/
theorem claim_C6_counterexample :
    applyIndentation ("a\n    b".toList) ("  ".toList) = ("a\n    b".toList)
    ∧ ("a\n    b".toList : List Char) ≠ ("a\n  b".toList) := by decide

/-- C6 (amended): re-indentation leaves the first line unchanged, and for
every later line that is not whitespace-only: a line with no leading
whitespace gets the base indentation prepended; a line that starts with the
base indentation (not merely one whose leading whitespace equals it) is
left untouched; a line with leading whitespace that does not start with the
base indentation has that whitespace replaced by the base indentation. -/
theorem claim_C6 (suggestion base : List Char) (hb : ('\n' : Char) ∉ base)
    (hlen : 2 ≤ (suggestion.splitOn '\n').length) :
    ((applyIndentation suggestion base).splitOn '\n')[0]?
        = (suggestion.splitOn '\n')[0]?
    ∧ ∀ i, 1 ≤ i → ∀ hi : i < (suggestion.splitOn '\n').length,
        (trimJS ((suggestion.splitOn '\n')[i]) = [] →
          ((applyIndentation suggestion base).splitOn '\n')[i]?
            = some ((suggestion.splitOn '\n')[i]))
        ∧ (trimJS ((suggestion.splitOn '\n')[i]) ≠ [] →
            ((suggestion.splitOn '\n')[i]).takeWhile isWsChar = [] →
            ((applyIndentation suggestion base).splitOn '\n')[i]?
              = some (base ++ (suggestion.splitOn '\n')[i]))
        ∧ (trimJS ((suggestion.splitOn '\n')[i]) ≠ [] →
            base.isPrefixOf ((suggestion.splitOn '\n')[i]) = true →
            ((suggestion.splitOn '\n')[i]).takeWhile isWsChar ≠ [] →
            ((applyIndentation suggestion base).splitOn '\n')[i]?
              = some ((suggestion.splitOn '\n')[i]))
        ∧ (trimJS ((suggestion.splitOn '\n')[i]) ≠ [] →
            base.isPrefixOf ((suggestion.splitOn '\n')[i]) = false →
            ((suggestion.splitOn '\n')[i]).takeWhile isWsChar ≠ [] →
            ((applyIndentation suggestion base).splitOn '\n')[i]?
              = some (base ++ ((suggestion.splitOn '\n')[i]).drop
                  (((suggestion.splitOn '\n')[i]).takeWhile isWsChar).length)) := by
  rw [splitOn_applyIndentation suggestion base hb hlen]
  constructor
  · rw [mapIdx_indentLine_getElem suggestion base 0 (by omega),
      indentLine_eq, if_pos rfl, List.getElem?_eq_getElem (by omega)]
  · intro i h1 hi
    rw [mapIdx_indentLine_getElem suggestion base i hi]
    refine ⟨fun hws => ?_, fun hws hind => ?_, fun hws hpre hind => ?_,
      fun hws hpre hind => ?_⟩
    · rw [indentLine_of_ws_only base i hws]
    · rw [indentLine_eq, if_neg (by omega), if_neg hws, if_neg (by simp [hind])]
    · rw [indentLine_eq, if_neg (by omega), if_neg hws, if_pos hind, if_pos hpre]
    · rw [indentLine_eq, if_neg (by omega), if_neg hws, if_pos hind,
        if_neg (by simp [hpre])]

/-- C6 witness: the spec's own example — first line a function header,
second line without leading whitespace, base indentation two spaces — yields
the second line prefixed with the base indentation. -/
theorem claim_C6_witness :
    ((applyIndentation ("foo() \x7b\nbar();".toList) ("  ".toList)).splitOn '\n')[1]?
      = some ("  bar();".toList) := by
  have h := ((claim_C6 ("foo() \x7b\nbar();".toList) ("  ".toList) (by decide)
    (by decide)).2 1 (by decide) (by decide)).2.1 (by decide) (by decide)
  exact h.trans (by decide)

/-- C7 counterexample: the four context sections are joined with a single
newline, not with blank-line separators: two nonempty sections `a` and `b`
combine to `a`, newline, `b`, which differs from the blank-line-separated
form. -/
theorem claim_C7_counterexample :
    combineContextSections ("a".toList) ("b".toList) [] [] = ("a\nb".toList)
    ∧ ("a\nb".toList : List Char) ≠ ("a\n\nb".toList) := by decide

/-- C7 (amended): the context bundle is the four sections in the fixed
order imports, cross-file project context, enclosing scope, immediate
pre-cursor window, with empty sections omitted and the remaining sections
joined by single newlines: with all four nonempty the bundle is their
newline-separated chain, and an empty section (here the project context)
drops out of the chain. -/
theorem claim_C7 (s1 s2 s3 s4 : List Char) :
    (s1 ≠ [] → s2 ≠ [] → s3 ≠ [] → s4 ≠ [] →
      combineContextSections s1 s2 s3 s4
        = s1 ++ '\n' :: (s2 ++ '\n' :: (s3 ++ '\n' :: s4)))
    ∧ (s2 = [] → s1 ≠ [] → s3 ≠ [] → s4 ≠ [] →
      combineContextSections s1 s2 s3 s4 = s1 ++ '\n' :: (s3 ++ '\n' :: s4)) := by
  constructor
  · intro h1 h2 h3 h4
    unfold combineContextSections
    rw [List.filter_cons_of_pos (by simpa using h1),
      List.filter_cons_of_pos (by simpa using h2),
      List.filter_cons_of_pos (by simpa using h3),
      List.filter_cons_of_pos (by simpa using h4)]
    simp [List.intercalate]
  · intro h2 h1 h3 h4
    subst h2
    unfold combineContextSections
    rw [List.filter_cons_of_pos (by simpa using h1),
      List.filter_cons_of_neg (by simp),
      List.filter_cons_of_pos (by simpa using h3),
      List.filter_cons_of_pos (by simpa using h4)]
    simp [List.intercalate]

/-- C7 witness: four concrete nonempty sections assemble in order with
single newlines, and with an empty project-context section the chain skips
it. -/
theorem claim_C7_witness :
    combineContextSections ("i".toList) ("p".toList) ("s".toList) ("w".toList)
      = ("i\np\ns\nw".toList) := by
  have h := (claim_C7 ("i".toList) ("p".toList) ("s".toList) ("w".toList)).1
    (by decide) (by decide) (by decide) (by decide)
  exact h.trans (by decide)

theorem scopeLoop_no_opener (lang : String) (lines : List (List Char)) (cursorLine : Nat)
    (hno : ∀ j, j ≤ cursorLine → openerAt lang lines cursorLine j = false) :
    ∀ i, i ≤ cursorLine →
      scopeLoop lang lines cursorLine i
        = if 30 ≤ cursorLine then sliceLines lines (cursorLine - 30) cursorLine
          else [] := by
  intro i
  induction i with
  | zero =>
    intro _
    show (if openerAt lang lines cursorLine 0 = true then _ else _) = _
    rw [if_neg (by rw [hno 0 (by omega)]; simp), Nat.sub_zero]
  | succ i ih =>
    intro hi
    show (if openerAt lang lines cursorLine (i + 1) = true then _ else _) = _
    rw [if_neg (by rw [hno (i + 1) hi]; simp)]
    by_cases h30 : 30 ≤ cursorLine - (i + 1)
    · rw [if_pos h30, if_pos (by omega)]
    · rw [if_neg h30]
      exact ih (by omega)

/-- C8 counterexample: in a three-line flat document no block-opening line
is found, yet the scope extraction returns the empty string rather than the
lines before the cursor verbatim, because the 30-line fallback only fires
when at least 30 lines precede the cursor. -/
theorem claim_C8_counterexample :
    openerAt "typescript" ["alpha;".toList, "beta;".toList, "gam".toList] 2 0 = false
    ∧ openerAt "typescript" ["alpha;".toList, "beta;".toList, "gam".toList] 2 1 = false
    ∧ openerAt "typescript" ["alpha;".toList, "beta;".toList, "gam".toList] 2 2 = false
    ∧ getCurrentScope "typescript" ["alpha;".toList, "beta;".toList, "gam".toList] 2 = []
    ∧ ("alpha;\nbeta;\ngam".toList : List Char) ≠ [] := by decide

/-- C8 (amended): when no block-opening line (smaller indentation and
`isBlockStart`) exists before the cursor, the backward walk of
`getCurrentScope` stops after at most 31 examined lines: if at least 30
lines precede the cursor it returns, verbatim, the 30 preceding lines
together with the cursor line's pre-cursor text; with fewer than 30
preceding lines it returns the empty string. -/
theorem claim_C8 (lang : String) (lines : List (List Char)) (cursorLine : Nat)
    (hno : ∀ j, j ≤ cursorLine → openerAt lang lines cursorLine j = false) :
    getCurrentScope lang lines cursorLine
      = if 30 ≤ cursorLine then
          List.intercalate ['\n'] (sliceLines lines (cursorLine - 30) cursorLine)
        else [] := by
  unfold getCurrentScope
  rw [scopeLoop_no_opener lang lines cursorLine hno cursorLine (by omega)]
  split
  · rfl
  · rfl

/-- C8 witness: a 32-line flat document with the cursor on the last line
has no block opener, and scope extraction returns exactly the window of
lines 1 through 31. -/
theorem claim_C8_witness :
    getCurrentScope "python" (List.replicate 32 ("x;".toList)) 31
      = List.intercalate ['\n'] (sliceLines (List.replicate 32 ("x;".toList)) 1 31) := by
  have h := claim_C8 "python" (List.replicate 32 ("x;".toList)) 31 (by decide)
  exact h.trans (by decide)

/-- C9: the language heuristics are total and degrade instead of failing:
for a language identifier outside every switch, comment and string
detection return false and import extraction returns the empty string; for
a position whose line index is outside the document, comment and string
detection return false; and for empty document text, import extraction
returns the empty string for every language. -/
theorem claim_C9 (lang : String) (doc : List (List Char)) (lineIdx charIdx : Nat)
    (text : List Char) :
    (lang ∉ knownLangs →
      isPositionInComment lang doc lineIdx charIdx = false
      ∧ isPositionInString lang doc lineIdx charIdx = false
      ∧ getImportStatements lang text = [])
    ∧ (doc.length ≤ lineIdx →
      isPositionInComment lang doc lineIdx charIdx = false
      ∧ isPositionInString lang doc lineIdx charIdx = false)
    ∧ getImportStatements lang [] = [] := by
  refine ⟨fun hlang => ⟨?_, ?_, ?_⟩, fun hout => ⟨?_, ?_⟩, ?_⟩
  · have h1 : lang ∉ slashCommentLangs := by
      intro hm; apply hlang; fin_cases hm <;> decide
    have h2 : lang ∉ hashCommentLangs := by
      intro hm; apply hlang; fin_cases hm <;> decide
    have h3 : lang ∉ markupCommentLangs := by
      intro hm; apply hlang; fin_cases hm <;> decide
    unfold isPositionInComment commentCheck
    rw [if_neg h1, if_neg h2, if_neg h3]
  · have h4 : lang ∉ quoteStringLangs := by
      intro hm; apply hlang; fin_cases hm <;> decide
    unfold isPositionInString stringCheck
    rw [if_neg h4]
  · have h5 : lang ∉ (["javascript", "typescript"] : List String) := by
      intro hm; apply hlang; fin_cases hm <;> decide
    have h6 : lang ≠ "python" := fun he => hlang (he ▸ (by decide))
    have h7 : lang ∉ (["java", "kotlin"] : List String) := by
      intro hm; apply hlang; fin_cases hm <;> decide
    have h8 : lang ≠ "go" := fun he => hlang (he ▸ (by decide))
    have h9 : lang ≠ "rust" := fun he => hlang (he ▸ (by decide))
    simp [getImportStatements, h5, h6, h7, h8, h9, List.intercalate]
  · have hline : doc.getD lineIdx [] = [] := List.getD_eq_default _ _ hout
    unfold isPositionInComment commentCheck
    rw [hline]
    split_ifs <;> simp [indexOfSub]
  · have hline : doc.getD lineIdx [] = [] := List.getD_eq_default _ _ hout
    unfold isPositionInString stringCheck
    rw [hline]
    split_ifs <;> simp
  · unfold getImportStatements
    split_ifs <;> decide

/-- C9 witness: an unknown language identifier yields false comment and
string detection and empty imports at a concrete document and position. -/
theorem claim_C9_witness :
    isPositionInComment "brainfuck" [("abc".toList)] 0 2 = false
    ∧ isPositionInString "brainfuck" [("abc".toList)] 0 2 = false
    ∧ getImportStatements "brainfuck" ("x".toList) = [] :=
  (claim_C9 "brainfuck" [("abc".toList)] 0 2 ("x".toList)).1 (by decide)

/-- C10: re-indentation preserves the number of lines of the suggestion,
returns the first line unchanged, and returns every whitespace-only line
unchanged (for any base indentation, which, being the leading whitespace of
a single line, contains no newline). -/
theorem claim_C10 (suggestion base : List Char) (hb : ('\n' : Char) ∉ base) :
    ((applyIndentation suggestion base).splitOn '\n').length
        = (suggestion.splitOn '\n').length
    ∧ ((applyIndentation suggestion base).splitOn '\n')[0]?
        = (suggestion.splitOn '\n')[0]?
    ∧ ∀ i, (hi : i < (suggestion.splitOn '\n').length) →
        trimJS ((suggestion.splitOn '\n')[i]) = [] →
        ((applyIndentation suggestion base).splitOn '\n')[i]?
          = some ((suggestion.splitOn '\n')[i]) := by
  by_cases hlen : (suggestion.splitOn '\n').length ≤ 1
  · have hid : applyIndentation suggestion base = suggestion := by
      unfold applyIndentation
      simp only []
      rw [if_pos hlen]
    rw [hid]
    exact ⟨rfl, rfl, fun i hi _ => List.getElem?_eq_getElem hi⟩
  · rw [splitOn_applyIndentation suggestion base hb (by omega)]
    refine ⟨by simp, ?_, ?_⟩
    · rw [mapIdx_indentLine_getElem suggestion base 0 (by omega),
        indentLine_eq, if_pos rfl, List.getElem?_eq_getElem (by omega)]
    · intro i hi hws
      rw [mapIdx_indentLine_getElem suggestion base i hi,
        indentLine_of_ws_only base i hws]

/-- C10 witness: a three-line suggestion with a whitespace-only middle line
keeps its line count, its first line and its middle line. -/
theorem claim_C10_witness :
    ((applyIndentation ("a\n \nb".toList) ("  ".toList)).splitOn '\n').length = 3
    ∧ ((applyIndentation ("a\n \nb".toList) ("  ".toList)).splitOn '\n')[1]?
        = some (" ".toList) := by
  have h := claim_C10 ("a\n \nb".toList) ("  ".toList) (by decide)
  exact ⟨h.1.trans (by decide), (h.2.2 1 (by decide) (by decide)).trans (by decide)⟩

end Autogem
